import Mathlib

/-!
Shallow embedding of the project-state management module of the repository
(`src/src/context/ProjectContext.tsx`, second revision of the file: the one that
routes the save-state machine through `transition` and types its history entries).
The store is a pure state value; each React `useCallback` mutator becomes a pure
function from store to store, with the wall-clock reads (`new Date()`) passed in
as an explicit `now : Nat` argument and the persistence backend's answers passed
in as explicit arguments.  External write effects (snapshot writes, recent-project
updates) are returned as data where a claim needs them and omitted otherwise.
-/

namespace ProjectStore

/-- Entities (tasks, resources, costs, risks) are opaque value snapshots to the
store: a unique id plus domain fields the store copies wholesale.  The `completed`
flag is the one field the external progress calculator inspects. -/
structure Entity where
  id : Nat
  fields : Nat
  completed : Bool
deriving DecidableEq

/-- Project record, with the fields the store reads and writes.  Timestamps and
the opaque `milestones`, `teams`, `budget` payloads are modelled as naturals. -/
structure Project where
  id : Nat
  name : Nat
  progress : Nat
  tasks : List Entity
  resources : List Entity
  costs : List Entity
  risks : List Entity
  milestones : Nat
  teams : Nat
  budget : Nat
  createdAt : Nat
  updatedAt : Nat
deriving DecidableEq

inductive SaveState where
  | UNTITLED
  | DIRTY
  | SAVED
deriving DecidableEq

inductive TimerState where
  | active
  | paused
deriving DecidableEq

inductive Provenance where
  | manual
  | file
  | snapshot
deriving DecidableEq

/-- Save-state machine record, from the `ProjectState` shape in the source. -/
structure ProjectState where
  currentState : SaveState
  hasUnsavedChanges : Bool
  isUntitled : Bool
  lastModified : Nat
  autosaveTimer : TimerState
  openedFrom : Option Provenance
deriving DecidableEq

/-- Undo history entries.  The source stores records with fields `type`,
`targetId`, `beforeState` and `afterState`, where `beforeState` is null for add
items and `afterState` is null for delete items; each constructor here carries
exactly the non-null payload of the record shape the corresponding mutator
pushes. -/
inductive UndoItem where
  | addTask (targetId : Nat) (afterState : Entity)
  | updateTask (targetId : Nat) (beforeState afterState : Entity)
  | deleteTask (targetId : Nat) (beforeState : Entity)
  | addResource (targetId : Nat) (afterState : Entity)
  | updateResource (targetId : Nat) (beforeState afterState : Entity)
  | deleteResource (targetId : Nat) (beforeState : Entity)
deriving DecidableEq

/-- The provider's state: the canonical project list, the active project
pointer, the two history stacks (list end = stack top) and the save-state
machine. -/
structure Store where
  projects : List Project
  currentProject : Option Project
  undoStack : List UndoItem
  redoStack : List UndoItem
  projectState : ProjectState
deriving DecidableEq

/-- Manifest written into every snapshot package (source lines 571-578). -/
structure Manifest where
  projectUuid : Nat
  fileVersion : Nat
  createdPlatform : Nat
  createdWithVersion : Nat
  createdAt : Nat
  updatedAt : Nat
deriving DecidableEq

/-- Snapshot package shape exchanged with the persistence backend. -/
structure Package where
  manifest : Manifest
  project : Project
  tasks : List Entity
  resources : List Entity
  milestones : Nat
  teams : Nat
  budget : Nat
deriving DecidableEq

/-- Package built from the active project, as in the `saveAutoSnapshot` call
sites (autosave effect and `saveProject`). -/
def mkPackage (cp : Project) (now : Nat) : Package :=
  { manifest :=
      { projectUuid := cp.id
        fileVersion := 0
        createdPlatform := 0
        createdWithVersion := 0
        createdAt := cp.createdAt
        updatedAt := now }
    project := cp
    tasks := cp.tasks
    resources := cp.resources
    milestones := cp.milestones
    teams := cp.teams
    budget := cp.budget }

/-- Modelled from the spec: `calculateProjectProgress` lives in
`src/utils/projectUtils`, which is not among the provided sources.  Spec
section 6 makes it a pure function from a task list to a completion
percentage 0..100, and the section 8 example pins it to the percentage of
completed tasks, with an empty task list giving 0. -/
def calculateProjectProgress (tasks : List Entity) : Nat :=
  if tasks.length = 0 then 0
  else 100 * (tasks.filter (fun t => t.completed)).length / tasks.length

/-- Modelled from the spec: `createEmptyProject` lives in
`src/utils/projectUtils`, which is not among the provided sources.  Per the
spec it creates a new empty project (no tasks, resources, costs or risks)
with a caller-visible fresh id; the fresh id is passed in explicitly here. -/
def createEmptyProject (name freshId now : Nat) : Project :=
  { id := freshId
    name := name
    progress := 0
    tasks := []
    resources := []
    costs := []
    risks := []
    milestones := 0
    teams := 0
    budget := 0
    createdAt := now
    updatedAt := now }

inductive SMEvent where
  | init
  | edit
  | save
  | restoreSnapshot
deriving DecidableEq

/-- Modelled from the spec: `transition` lives in `src/utils/stateMachine`,
which is not among the provided sources.  Spec section 4.1 gives exactly these
transitions (`init` stands for the spec's initialize event) and says
`lastModified` is refreshed on every transition; fields the spec does not
mention are carried over from the previous state. -/
def transition (prev : ProjectState) (ev : SMEvent) (now : Nat) : ProjectState :=
  match ev with
  | SMEvent.init =>
      { prev with currentState := SaveState.UNTITLED, hasUnsavedChanges := false,
                  isUntitled := true, lastModified := now }
  | SMEvent.edit =>
      { prev with currentState := SaveState.DIRTY, hasUnsavedChanges := true,
                  lastModified := now }
  | SMEvent.save =>
      { prev with currentState := SaveState.SAVED, hasUnsavedChanges := false,
                  isUntitled := false, lastModified := now }
  | SMEvent.restoreSnapshot =>
      { prev with currentState := SaveState.SAVED, hasUnsavedChanges := false,
                  isUntitled := false, lastModified := now,
                  openedFrom := some Provenance.snapshot }

/-- Source `pushUndo`: `setUndoStack(prev => [...prev.slice(0, 49), item])`
then `setRedoStack([])`.  JavaScript `slice(0, 49)` is `take 49`. -/
def pushUndo (s : Store) (item : UndoItem) : Store :=
  { s with undoStack := s.undoStack.take 49 ++ [item], redoStack := [] }

/-- Source `updateProject`: recomputes progress from the given project's
tasks, stamps `updatedAt`, replaces the project in the list by id, makes it
current and fires the `edit` transition. -/
def updateProject (s : Store) (updatedProject : Project) (now : Nat) : Store :=
  let progress := calculateProjectProgress updatedProject.tasks
  let finalProject := { updatedProject with progress := progress, updatedAt := now }
  { s with
    projects := s.projects.map (fun p => if p.id = finalProject.id then finalProject else p)
    currentProject := some finalProject
    projectState := transition s.projectState SMEvent.edit now }

/-- Source `createProject`: appends an empty project, makes it current, fires
`initialize` and clears both stacks.  The recent-projects update is an
external effect and is omitted. -/
def createProject (s : Store) (name freshId now : Nat) : Store :=
  let newProject := createEmptyProject name freshId now
  { s with
    projects := s.projects ++ [newProject]
    currentProject := some newProject
    projectState := transition s.projectState SMEvent.init now
    undoStack := []
    redoStack := [] }

/-- Source `deleteProject`: filters the project out; if it was current, makes
the first remaining project current, or creates a fresh project when none
remain. -/
def deleteProject (s : Store) (projectId : Nat) (name freshId now : Nat) : Store :=
  let s1 := { s with projects := s.projects.filter (fun p => p.id != projectId) }
  match s.currentProject with
  | some cp =>
      if cp.id = projectId then
        match s.projects.filter (fun p => p.id != projectId) with
        | p0 :: _ => { s1 with currentProject := some p0 }
        | [] => createProject s1 name freshId now
      else s1
  | none => s1

/-- Source `setCurrentProject` is the raw `useState` setter exposed on the
context value. -/
def setCurrentProject (s : Store) (p : Project) : Store :=
  { s with currentProject := some p }

/-- Source `addTask`: no-op without an active project; otherwise records an
add item and appends the task. -/
def addTask (s : Store) (task : Entity) (now : Nat) : Store :=
  match s.currentProject with
  | none => s
  | some cp =>
      let s1 := pushUndo s (UndoItem.addTask task.id task)
      updateProject s1 { cp with tasks := cp.tasks ++ [task] } now

/-- Source `updateTask`: records an update item only when a task with the id
exists, then maps the replacement over the task list. -/
def updateTask (s : Store) (updatedTask : Entity) (now : Nat) : Store :=
  match s.currentProject with
  | none => s
  | some cp =>
      let s1 :=
        match cp.tasks.find? (fun t => t.id == updatedTask.id) with
        | some oldTask => pushUndo s (UndoItem.updateTask updatedTask.id oldTask updatedTask)
        | none => s
      updateProject s1
        { cp with tasks := cp.tasks.map (fun t => if t.id = updatedTask.id then updatedTask else t) }
        now

/-- Source `deleteTask`: records a delete item only when a task with the id
exists, then filters it out. -/
def deleteTask (s : Store) (taskId : Nat) (now : Nat) : Store :=
  match s.currentProject with
  | none => s
  | some cp =>
      let s1 :=
        match cp.tasks.find? (fun t => t.id == taskId) with
        | some oldTask => pushUndo s (UndoItem.deleteTask taskId oldTask)
        | none => s
      updateProject s1 { cp with tasks := cp.tasks.filter (fun t => t.id != taskId) } now

/-- Source `addResource`. -/
def addResource (s : Store) (resource : Entity) (now : Nat) : Store :=
  match s.currentProject with
  | none => s
  | some cp =>
      let s1 := pushUndo s (UndoItem.addResource resource.id resource)
      updateProject s1 { cp with resources := cp.resources ++ [resource] } now

/-- Source `updateResource`. -/
def updateResource (s : Store) (updatedResource : Entity) (now : Nat) : Store :=
  match s.currentProject with
  | none => s
  | some cp =>
      let s1 :=
        match cp.resources.find? (fun r => r.id == updatedResource.id) with
        | some oldResource =>
            pushUndo s (UndoItem.updateResource updatedResource.id oldResource updatedResource)
        | none => s
      updateProject s1
        { cp with resources :=
            cp.resources.map (fun r => if r.id = updatedResource.id then updatedResource else r) }
        now

/-- Source `deleteResource`. -/
def deleteResource (s : Store) (resourceId : Nat) (now : Nat) : Store :=
  match s.currentProject with
  | none => s
  | some cp =>
      let s1 :=
        match cp.resources.find? (fun r => r.id == resourceId) with
        | some oldResource => pushUndo s (UndoItem.deleteResource resourceId oldResource)
        | none => s
      updateProject s1 { cp with resources := cp.resources.filter (fun r => r.id != resourceId) } now

/-- Source `addCost`: cost mutations skip undo recording entirely. -/
def addCost (s : Store) (cost : Entity) (now : Nat) : Store :=
  match s.currentProject with
  | none => s
  | some cp => updateProject s { cp with costs := cp.costs ++ [cost] } now

/-- Source `deleteCost`. -/
def deleteCost (s : Store) (id : Nat) (now : Nat) : Store :=
  match s.currentProject with
  | none => s
  | some cp => updateProject s { cp with costs := cp.costs.filter (fun c => c.id != id) } now

/-- Source `addRisk`: risk mutations skip undo recording entirely. -/
def addRisk (s : Store) (risk : Entity) (now : Nat) : Store :=
  match s.currentProject with
  | none => s
  | some cp => updateProject s { cp with risks := cp.risks ++ [risk] } now

/-- Source `saveProject`: writes a snapshot package (external effect, the
written package is the second component), fires the `save` transition and
clears both stacks. -/
def saveProject (s : Store) (now : Nat) : Store × Option Package :=
  match s.currentProject with
  | none => (s, none)
  | some cp =>
      ({ s with
          projectState := transition s.projectState SMEvent.save now
          undoStack := []
          redoStack := [] },
       some (mkPackage cp now))

/-- Source `restoreSnapshot`: asks the backend for the named snapshot; returns
without touching anything when the backend has none; otherwise replaces or
inserts the package's project, makes it current and fires the
`restoreSnapshot` transition.  The backend is passed in as a lookup
function. -/
def restoreSnapshot (backend : Nat → Option Package) (name : Nat) (s : Store) (now : Nat) :
    Store :=
  match backend name with
  | none => s
  | some pkg =>
      { s with
        currentProject := some pkg.project
        projects := s.projects.filter (fun p => p.id != pkg.project.id) ++ [pkg.project]
        projectState := transition s.projectState SMEvent.restoreSnapshot now }

/-- One firing of the autosave timer (source lines 566-593).  The effect is
installed only while the timer flag is active and a project is loaded; the
callback then writes a snapshot package exactly when `hasUnsavedChanges` is
set.  The store itself is returned untouched; the written package, if any, is
the second component. -/
def autosaveTick (s : Store) (now : Nat) : Store × Option Package :=
  if s.projectState.autosaveTimer = TimerState.active then
    match s.currentProject with
    | some cp =>
        if s.projectState.hasUnsavedChanges then (s, some (mkPackage cp now)) else (s, none)
    | none => (s, none)
  else (s, none)

/-- Inverse application performed by the `undo` switch (source lines 961-1013),
case by case. -/
def applyUndo (cp : Project) (a : UndoItem) : Project :=
  match a with
  | UndoItem.addTask targetId _ =>
      { cp with tasks := cp.tasks.filter (fun t => t.id != targetId) }
  | UndoItem.updateTask targetId beforeState _ =>
      { cp with tasks := cp.tasks.map (fun t => if t.id = targetId then beforeState else t) }
  | UndoItem.deleteTask _ beforeState =>
      { cp with tasks := cp.tasks ++ [beforeState] }
  | UndoItem.addResource targetId _ =>
      { cp with resources := cp.resources.filter (fun r => r.id != targetId) }
  | UndoItem.updateResource targetId beforeState _ =>
      { cp with resources := cp.resources.map (fun r => if r.id = targetId then beforeState else r) }
  | UndoItem.deleteResource _ beforeState =>
      { cp with resources := cp.resources ++ [beforeState] }

/-- Forward application performed by the `redo` switch (source lines
1028-1080), case by case. -/
def applyRedo (cp : Project) (a : UndoItem) : Project :=
  match a with
  | UndoItem.addTask _ afterState =>
      { cp with tasks := cp.tasks ++ [afterState] }
  | UndoItem.updateTask targetId _ afterState =>
      { cp with tasks := cp.tasks.map (fun t => if t.id = targetId then afterState else t) }
  | UndoItem.deleteTask targetId _ =>
      { cp with tasks := cp.tasks.filter (fun t => t.id != targetId) }
  | UndoItem.addResource _ afterState =>
      { cp with resources := cp.resources ++ [afterState] }
  | UndoItem.updateResource targetId _ afterState =>
      { cp with resources := cp.resources.map (fun r => if r.id = targetId then afterState else r) }
  | UndoItem.deleteResource targetId _ =>
      { cp with resources := cp.resources.filter (fun r => r.id != targetId) }

/-- Source `undo`: no-op on an empty undo stack or without an active project;
otherwise pops the top item, pushes it onto the redo stack and applies the
inverse of its operation through `updateProject`. -/
def undo (s : Store) (now : Nat) : Store :=
  match s.currentProject, s.undoStack.getLast? with
  | some cp, some lastAction =>
      let s1 : Store :=
        { s with undoStack := s.undoStack.dropLast, redoStack := s.redoStack ++ [lastAction] }
      updateProject s1 (applyUndo cp lastAction) now
  | _, _ => s

/-- Source `redo`: symmetric to `undo`, replaying the forward operation. -/
def redo (s : Store) (now : Nat) : Store :=
  match s.currentProject, s.redoStack.getLast? with
  | some cp, some lastAction =>
      let s1 : Store :=
        { s with redoStack := s.redoStack.dropLast, undoStack := s.undoStack ++ [lastAction] }
      updateProject s1 (applyRedo cp lastAction) now
  | _, _ => s

/-- Iterated `undo`. -/
def undoN : Nat → Store → Nat → Store
  | 0, s, _ => s
  | n + 1, s, now => undoN n (undo s now) now

/-- Iterated `redo`. -/
def redoN : Nat → Store → Nat → Store
  | 0, s, _ => s
  | n + 1, s, now => redo (redoN n s now) now

/-- The task/resource mutator calls a UI collaborator can issue, for stating
properties over arbitrary call sequences. -/
inductive Op where
  | addTask (t : Entity)
  | updateTask (t : Entity)
  | deleteTask (id : Nat)
  | addResource (r : Entity)
  | updateResource (r : Entity)
  | deleteResource (id : Nat)
deriving DecidableEq

def applyOp (s : Store) (op : Op) (now : Nat) : Store :=
  match op with
  | Op.addTask t => addTask s t now
  | Op.updateTask t => updateTask s t now
  | Op.deleteTask i => deleteTask s i now
  | Op.addResource r => addResource s r now
  | Op.updateResource r => updateResource s r now
  | Op.deleteResource i => deleteResource s i now

def applyOps (s : Store) (ops : List Op) (now : Nat) : Store :=
  ops.foldl (fun st op => applyOp st op now) s

/-- The add contract of spec section 4.2: an add must carry an id that is not
already present in the target collection.  Updates and deletes are
unconstrained. -/
def freshOk (s : Store) (op : Op) : Bool :=
  match s.currentProject, op with
  | some cp, Op.addTask t => cp.tasks.all (fun x => x.id != t.id)
  | some cp, Op.addResource r => cp.resources.all (fun x => x.id != r.id)
  | _, _ => true

/-- A call sequence respecting the add contract at every step. -/
def wfOps (now : Nat) : Store → List Op → Bool
  | _, [] => true
  | s, op :: rest => freshOk s op && wfOps now (applyOp s op now) rest

/-- Derived-progress check on the active project; vacuously true when no
project is active. -/
def progressOK (s : Store) : Bool :=
  match s.currentProject with
  | some cp => cp.progress == calculateProjectProgress cp.tasks
  | none => true

/-- Fields of the active project's task with the given id, for stating
concrete roundtrip facts. -/
def findTaskFields (s : Store) (i : Nat) : Option Nat :=
  s.currentProject.bind (fun cp => (cp.tasks.find? (fun t => t.id == i)).map Entity.fields)

/-- Initial save-state machine value (source lines 556-563, with timestamp 0). -/
def baseState : ProjectState :=
  { currentState := SaveState.UNTITLED
    hasUnsavedChanges := false
    isUntitled := true
    lastModified := 0
    autosaveTimer := TimerState.active
    openedFrom := none }

def emptyProject : Project := createEmptyProject 0 0 0

/-- A store with one empty active project and empty history, for concrete
instances. -/
def baseStore : Store :=
  { projects := [emptyProject]
    currentProject := some emptyProject
    undoStack := []
    redoStack := []
    projectState := baseState }

def mkItem (k : Nat) : UndoItem := UndoItem.addTask k ⟨k, 0, false⟩

def pushMany (s : Store) (items : List UndoItem) : Store := items.foldl pushUndo s

def items51 : List UndoItem := (List.range 51).map mkItem


/-! Concrete stores and operation lists used by counterexamples and witnesses. -/

/-- Store whose state machine sits in SAVED with no unsaved changes. -/
def savedStore : Store :=
  { baseStore with
    projectState := { baseState with currentState := SaveState.SAVED, hasUnsavedChanges := false } }

/-- Store holding exactly one project (the active one) and one pending undo item. -/
def soloStore : Store :=
  { projects := [emptyProject]
    currentProject := some emptyProject
    undoStack := [mkItem 0]
    redoStack := []
    projectState := baseState }

/-- A 51-operation call sequence that respects the add contract: 48 filler
adds, an add of task 100, an update of task 100, and an add of task 200. -/
def opsEx : List Op :=
  ((List.range 48).map (fun k => Op.addTask { id := k, fields := 0, completed := false })) ++
  [Op.addTask { id := 100, fields := 7, completed := false },
   Op.updateTask { id := 100, fields := 8, completed := false },
   Op.addTask { id := 200, fields := 9, completed := false }]

def s1Ex : Store := applyOps baseStore opsEx 0

def s2Ex : Store := redoN 2 (undoN 2 s1Ex 0) 0

/-! Machinery for the undo/redo roundtrip analysis (claim C1). -/

/-- Effect on the task list of undoing one item; identity for resource items. -/
def undoTasksItem (a : UndoItem) (ts : List Entity) : List Entity :=
  match a with
  | UndoItem.addTask i _ => ts.filter (fun t => t.id != i)
  | UndoItem.updateTask i b _ => ts.map (fun t => if t.id = i then b else t)
  | UndoItem.deleteTask _ b => ts ++ [b]
  | _ => ts

/-- Effect on the resource list of undoing one item; identity for task items. -/
def undoResItem (a : UndoItem) (rs : List Entity) : List Entity :=
  match a with
  | UndoItem.addResource i _ => rs.filter (fun r => r.id != i)
  | UndoItem.updateResource i b _ => rs.map (fun r => if r.id = i then b else r)
  | UndoItem.deleteResource _ b => rs ++ [b]
  | _ => rs

/-- Effect on the task list of redoing one item; identity for resource items. -/
def redoTasksItem (a : UndoItem) (ts : List Entity) : List Entity :=
  match a with
  | UndoItem.addTask _ aft => ts ++ [aft]
  | UndoItem.updateTask i _ aft => ts.map (fun t => if t.id = i then aft else t)
  | UndoItem.deleteTask i _ => ts.filter (fun t => t.id != i)
  | _ => ts

/-- Effect on the resource list of redoing one item; identity for task items. -/
def redoResItem (a : UndoItem) (rs : List Entity) : List Entity :=
  match a with
  | UndoItem.addResource _ aft => rs ++ [aft]
  | UndoItem.updateResource i _ aft => rs.map (fun r => if r.id = i then aft else r)
  | UndoItem.deleteResource i _ => rs.filter (fun r => r.id != i)
  | _ => rs

/-- Applicability of an item to collections: the condition under which redoing
the item exactly cancels undoing it.  Items recorded by the mutators against a
collection with unique ids satisfy it at the state where they were pushed. -/
def itemOK (ts rs : List Entity) (a : UndoItem) : Prop :=
  match a with
  | UndoItem.addTask i aft => ts.filter (fun t => t.id == i) = [aft]
  | UndoItem.updateTask i b aft => b.id = i ∧ ∀ t ∈ ts, t.id = i → t = aft
  | UndoItem.deleteTask i b => b.id = i ∧ ∀ t ∈ ts, t.id ≠ i
  | UndoItem.addResource i aft => rs.filter (fun r => r.id == i) = [aft]
  | UndoItem.updateResource i b aft => b.id = i ∧ ∀ r ∈ rs, r.id = i → r = aft
  | UndoItem.deleteResource i b => b.id = i ∧ ∀ r ∈ rs, r.id ≠ i

/-- Consistency of a list of items, read top-of-stack first, against the
current collections: each item is applicable at the state obtained by undoing
the items above it. -/
def consistentRev : List Entity → List Entity → List UndoItem → Prop
  | _, _, [] => True
  | ts, rs, a :: rest =>
      itemOK ts rs a ∧ consistentRev (undoTasksItem a ts) (undoResItem a rs) rest

/-- Consistency of an undo stack (list end = top) against the collections. -/
def StackConsistent (ts rs : List Entity) (stack : List UndoItem) : Prop :=
  consistentRev ts rs stack.reverse

/-- Observational equivalence of stores: equal history stacks, and active
projects that agree up to permutation of their task and resource lists. -/
def StoreEquiv (s t : Store) : Prop :=
  s.undoStack = t.undoStack ∧ s.redoStack = t.redoStack ∧
  match s.currentProject, t.currentProject with
  | some cp, some cq =>
      cp.id = cq.id ∧ List.Perm cp.tasks cq.tasks ∧ List.Perm cp.resources cq.resources
  | none, none => True
  | _, _ => False

/-- Two-operation sequence for the claim C1 witness. -/
def opsW : List Op :=
  [Op.addTask { id := 1, fields := 5, completed := false },
   Op.updateTask { id := 1, fields := 6, completed := true }]

/-- Active project after running `opsW` from `baseStore`, for the claim C1
witness. -/
def cpW : Project :=
  { id := 0
    name := 0
    progress := 100
    tasks := [{ id := 1, fields := 6, completed := true }]
    resources := []
    costs := []
    risks := []
    milestones := 0
    teams := 0
    budget := 0
    createdAt := 0
    updatedAt := 0 }

/-! Projection lemmas for `updateProject`. -/

theorem updateProject_currentProject (s : Store) (p : Project) (now : Nat) :
    (updateProject s p now).currentProject =
      some { p with progress := calculateProjectProgress p.tasks, updatedAt := now } := rfl

theorem updateProject_undoStack (s : Store) (p : Project) (now : Nat) :
    (updateProject s p now).undoStack = s.undoStack := rfl

theorem updateProject_redoStack (s : Store) (p : Project) (now : Nat) :
    (updateProject s p now).redoStack = s.redoStack := rfl

theorem updateProject_projectState (s : Store) (p : Project) (now : Nat) :
    (updateProject s p now).projectState = transition s.projectState SMEvent.edit now := rfl

theorem progressOK_updateProject (s : Store) (p : Project) (now : Nat) :
    progressOK (updateProject s p now) = true := by
  simp [progressOK, updateProject]

/-! Stack-shape lemmas for `pushUndo`. -/

theorem pushUndo_stack_small (s : Store) (a : UndoItem) (h : s.undoStack.length ≤ 49) :
    (pushUndo s a).undoStack = s.undoStack ++ [a] := by
  simp [pushUndo, List.take_of_length_le h]

theorem pushMany_stack (items : List UndoItem) : ∀ s : Store,
    s.undoStack.length + items.length ≤ 50 →
    (pushMany s items).undoStack = s.undoStack ++ items := by
  induction items with
  | nil => intro s _; simp [pushMany]
  | cons a rest ih =>
      intro s h
      have h49 : s.undoStack.length ≤ 49 := by
        simp only [List.length_cons] at h; omega
      have hstep : pushMany s (a :: rest) = pushMany (pushUndo s a) rest := rfl
      have hlen : (pushUndo s a).undoStack.length + rest.length ≤ 50 := by
        rw [pushUndo_stack_small s a h49]
        simp only [List.length_append, List.length_cons, List.length_nil] at h ⊢
        omega
      rw [hstep, ih (pushUndo s a) hlen, pushUndo_stack_small s a h49, List.append_assoc]
      rfl

/-- Claim C2 counterexample: pushing the 51 items of `items51` onto an empty
stack leaves 50 entries, but the result is not items 2..51 — the first item
pushed is still present and the 50th was the one evicted. -/
theorem c2_counterexample :
    (pushMany baseStore items51).undoStack.length = 50 ∧
    (pushMany baseStore items51).undoStack ≠ items51.drop 1 ∧
    (pushMany baseStore items51).undoStack = items51.take 49 ++ items51.drop 50 := by
  decide

/-- Claim C2 amended: pushing 51 undo items leaves the stack at exactly 50
entries, but the entry evicted at the cap is the most recent pre-existing one,
not the oldest: the stack ends up holding items 1 through 49 followed by item
51. -/
theorem c2_cap_drops_newest (s : Store) (items : List UndoItem)
    (h0 : s.undoStack = []) (h51 : items.length = 51) :
    (pushMany s items).undoStack = items.take 49 ++ items.drop 50 ∧
    (pushMany s items).undoStack.length = 50 := by
  obtain ⟨a, ha⟩ : ∃ a, items.drop 50 = [a] := by
    apply List.length_eq_one.mp
    rw [List.length_drop, h51]
  have h1 : pushMany s items = pushUndo (pushMany s (items.take 50)) a := by
    conv_lhs => rw [← List.take_append_drop 50 items, ha]
    show (items.take 50 ++ [a]).foldl pushUndo s = _
    rw [List.foldl_append]
    rfl
  have htlen : (items.take 50).length = 50 := by
    rw [List.length_take]
    omega
  have h2 : (pushMany s (items.take 50)).undoStack = items.take 50 := by
    have := pushMany_stack (items.take 50) s (by rw [h0, htlen]; simp)
    rw [h0] at this
    simpa using this
  have h3 : (pushMany s items).undoStack = items.take 49 ++ [a] := by
    rw [h1]
    show (pushMany s (items.take 50)).undoStack.take 49 ++ [a] = _
    rw [h2, List.take_take]
    rfl
  constructor
  · rw [h3, ha]
  · rw [h3, List.length_append, List.length_take, List.length_singleton]
    omega

/-- Claim C2 amended witness at the concrete 51-item list. -/
theorem c2_cap_drops_newest_witness :
    baseStore.undoStack = [] ∧ items51.length = 51 ∧
    ((pushMany baseStore items51).undoStack = items51.take 49 ++ items51.drop 50 ∧
      (pushMany baseStore items51).undoStack.length = 50) :=
  ⟨rfl, by decide, c2_cap_drops_newest baseStore items51 rfl (by decide)⟩


/-! Computation lemmas reducing the match-based operations once their
discriminants are known. -/

theorem addTask_eq (s : Store) (cp : Project) (t : Entity) (now : Nat)
    (hcp : s.currentProject = some cp) :
    addTask s t now =
      updateProject (pushUndo s (UndoItem.addTask t.id t)) { cp with tasks := cp.tasks ++ [t] }
        now := by
  unfold addTask
  rw [hcp]

theorem undo_fire (s : Store) (cp : Project) (a : UndoItem) (now : Nat)
    (hcp : s.currentProject = some cp) (ha : s.undoStack.getLast? = some a) :
    undo s now =
      updateProject
        { s with undoStack := s.undoStack.dropLast, redoStack := s.redoStack ++ [a] }
        (applyUndo cp a) now := by
  unfold undo
  rw [hcp, ha]

theorem redo_fire (s : Store) (cp : Project) (a : UndoItem) (now : Nat)
    (hcp : s.currentProject = some cp) (ha : s.redoStack.getLast? = some a) :
    redo s now =
      updateProject
        { s with redoStack := s.redoStack.dropLast, undoStack := s.undoStack ++ [a] }
        (applyRedo cp a) now := by
  unfold redo
  rw [hcp, ha]

theorem undo_of_none (s : Store) (now : Nat) (h : s.currentProject = none) :
    undo s now = s := by
  cases ha : s.undoStack.getLast? <;> (unfold undo; rw [h, ha])

theorem redo_of_none (s : Store) (now : Nat) (h : s.currentProject = none) :
    redo s now = s := by
  cases ha : s.redoStack.getLast? <;> (unfold redo; rw [h, ha])

theorem undo_of_empty (s : Store) (now : Nat) (h : s.undoStack = []) :
    undo s now = s := by
  have ha : s.undoStack.getLast? = none := by rw [h]; rfl
  cases hc : s.currentProject <;> (unfold undo; rw [hc, ha])

theorem redo_of_empty (s : Store) (now : Nat) (h : s.redoStack = []) :
    redo s now = s := by
  have ha : s.redoStack.getLast? = none := by rw [h]; rfl
  cases hc : s.currentProject <;> (unfold redo; rw [hc, ha])

/-- Claim C3: every `pushUndo` call leaves the redo stack empty, whatever the
item and the prior stack contents; consequently, after a fresh edit (an
`addTask`) followed by one `undo`, the redo stack holds only that fresh edit's
item, so a redo can never replay a previously discarded forward action. -/
theorem c3_pushUndo_clears_redo (s : Store) (item : UndoItem) (t : Entity) (now : Nat)
    (cp : Project) (hcp : s.currentProject = some cp) :
    (pushUndo s item).redoStack = [] ∧
    ∀ d ∈ (undo (addTask s t now) now).redoStack, d = UndoItem.addTask t.id t := by
  refine ⟨rfl, ?_⟩
  have h1 : (undo (addTask s t now) now).redoStack = [UndoItem.addTask t.id t] := by
    rw [addTask_eq s cp t now hcp]
    rw [undo_fire _ _ (UndoItem.addTask t.id t) now rfl (List.getLast?_concat _)]
    rfl
  rw [h1]
  intro d hd
  simpa using hd

/-- Claim C3 witness at a concrete store, item and task. -/
theorem c3_pushUndo_clears_redo_witness :
    baseStore.currentProject = some emptyProject ∧
    ((pushUndo baseStore (mkItem 3)).redoStack = [] ∧
      ∀ d ∈ (undo (addTask baseStore ⟨5, 1, false⟩ 7) 7).redoStack,
        d = UndoItem.addTask 5 ⟨5, 1, false⟩) :=
  ⟨rfl, c3_pushUndo_clears_redo baseStore (mkItem 3) ⟨5, 1, false⟩ 7 emptyProject rfl⟩


theorem deleteTask_eq_of_missing (s : Store) (cp : Project) (tid : Nat) (now : Nat)
    (hcp : s.currentProject = some cp)
    (hfind : cp.tasks.find? (fun t => t.id == tid) = none) :
    deleteTask s tid now =
      updateProject s { cp with tasks := cp.tasks.filter (fun t => t.id != tid) } now := by
  unfold deleteTask
  rw [hcp]
  dsimp only
  rw [hfind]

theorem deleteResource_eq_of_missing (s : Store) (cp : Project) (rid : Nat) (now : Nat)
    (hcp : s.currentProject = some cp)
    (hfind : cp.resources.find? (fun r => r.id == rid) = none) :
    deleteResource s rid now =
      updateProject s { cp with resources := cp.resources.filter (fun r => r.id != rid) } now := by
  unfold deleteResource
  rw [hcp]
  dsimp only
  rw [hfind]

/-- Claim C4 counterexample: on a store sitting in SAVED with no unsaved
changes, deleting a task id that matches nothing pushes no undo item and
leaves the task list untouched, yet the save-state machine moves to DIRTY
with `hasUnsavedChanges = true` — the edit transition fires anyway. -/
theorem c4_counterexample :
    savedStore.projectState.currentState = SaveState.SAVED ∧
    savedStore.projectState.hasUnsavedChanges = false ∧
    (deleteTask savedStore 42 0).undoStack = savedStore.undoStack ∧
    (deleteTask savedStore 42 0).currentProject.map Project.tasks = some [] ∧
    (deleteTask savedStore 42 0).projectState.currentState = SaveState.DIRTY ∧
    (deleteTask savedStore 42 0).projectState.hasUnsavedChanges = true := by
  decide

/-- Claim C4 amended: a `deleteTask` or `deleteResource` whose id matches no
entity in the active project pushes no undo item and leaves both entity
collections unchanged, but the edit transition still fires: the call reaches
`updateProject`, so `currentState` becomes DIRTY and `hasUnsavedChanges`
becomes true. -/
theorem c4_delete_missing_still_dirties (s : Store) (cp : Project) (tid rid now : Nat)
    (hcp : s.currentProject = some cp)
    (ht : ∀ x ∈ cp.tasks, x.id ≠ tid)
    (hr : ∀ x ∈ cp.resources, x.id ≠ rid) :
    (deleteTask s tid now).undoStack = s.undoStack ∧
    (deleteTask s tid now).currentProject.map Project.tasks = some cp.tasks ∧
    (deleteTask s tid now).currentProject.map Project.resources = some cp.resources ∧
    (deleteTask s tid now).projectState.currentState = SaveState.DIRTY ∧
    (deleteTask s tid now).projectState.hasUnsavedChanges = true ∧
    (deleteResource s rid now).undoStack = s.undoStack ∧
    (deleteResource s rid now).currentProject.map Project.tasks = some cp.tasks ∧
    (deleteResource s rid now).currentProject.map Project.resources = some cp.resources ∧
    (deleteResource s rid now).projectState.currentState = SaveState.DIRTY ∧
    (deleteResource s rid now).projectState.hasUnsavedChanges = true := by
  have hfindT : cp.tasks.find? (fun t => t.id == tid) = none := by
    rw [List.find?_eq_none]
    intro x hx
    simpa using ht x hx
  have hfilterT : cp.tasks.filter (fun t => t.id != tid) = cp.tasks := by
    rw [List.filter_eq_self]
    intro x hx
    simpa using ht x hx
  have hfindR : cp.resources.find? (fun r => r.id == rid) = none := by
    rw [List.find?_eq_none]
    intro x hx
    simpa using hr x hx
  have hfilterR : cp.resources.filter (fun r => r.id != rid) = cp.resources := by
    rw [List.filter_eq_self]
    intro x hx
    simpa using hr x hx
  rw [deleteTask_eq_of_missing s cp tid now hcp hfindT,
      deleteResource_eq_of_missing s cp rid now hcp hfindR, hfilterT, hfilterR]
  refine ⟨rfl, rfl, rfl, rfl, rfl, rfl, rfl, rfl, rfl, rfl⟩

/-- Claim C4 amended witness at the concrete SAVED store. -/
theorem c4_delete_missing_still_dirties_witness :
    savedStore.currentProject = some emptyProject ∧
    ((deleteTask savedStore 42 0).undoStack = savedStore.undoStack ∧
      (deleteTask savedStore 42 0).currentProject.map Project.tasks = some emptyProject.tasks ∧
      (deleteTask savedStore 42 0).currentProject.map Project.resources =
        some emptyProject.resources ∧
      (deleteTask savedStore 42 0).projectState.currentState = SaveState.DIRTY ∧
      (deleteTask savedStore 42 0).projectState.hasUnsavedChanges = true ∧
      (deleteResource savedStore 42 0).undoStack = savedStore.undoStack ∧
      (deleteResource savedStore 42 0).currentProject.map Project.tasks =
        some emptyProject.tasks ∧
      (deleteResource savedStore 42 0).currentProject.map Project.resources =
        some emptyProject.resources ∧
      (deleteResource savedStore 42 0).projectState.currentState = SaveState.DIRTY ∧
      (deleteResource savedStore 42 0).projectState.hasUnsavedChanges = true) :=
  ⟨rfl, c4_delete_missing_still_dirties savedStore emptyProject 42 42 0 rfl
    (by decide) (by decide)⟩

/-- Claim C5: after any task mutation — `addTask`, `updateTask`, `deleteTask`,
a direct `updateProject` with an arbitrary project value, or an `undo`/`redo`
that actually replays an item — the active project's `progress` equals
`calculateProjectProgress` of its resulting task list; progress cannot be set
independently because `updateProject` overwrites whatever `progress` value the
caller passed in. -/
theorem c5_progress_never_stale (s : Store) (t u : Entity) (p : Project) (tid now : Nat) :
    progressOK (addTask s t now) = true ∧
    progressOK (updateTask s u now) = true ∧
    progressOK (deleteTask s tid now) = true ∧
    progressOK (updateProject s p now) = true ∧
    (s.undoStack ≠ [] → progressOK (undo s now) = true) ∧
    (s.redoStack ≠ [] → progressOK (redo s now) = true) := by
  have hnone : ∀ s' : Store, s'.currentProject = none → progressOK s' = true := by
    intro s' h
    simp [progressOK, h]
  refine ⟨?_, ?_, ?_, progressOK_updateProject s p now, ?_, ?_⟩
  · cases hc : s.currentProject with
    | none => unfold addTask; rw [hc]; exact hnone s hc
    | some cp => rw [addTask_eq s cp t now hc]; exact progressOK_updateProject _ _ now
  · cases hc : s.currentProject with
    | none => unfold updateTask; rw [hc]; exact hnone s hc
    | some cp =>
        unfold updateTask
        rw [hc]
        cases cp.tasks.find? (fun x => x.id == u.id) <;> exact progressOK_updateProject _ _ now
  · cases hc : s.currentProject with
    | none => unfold deleteTask; rw [hc]; exact hnone s hc
    | some cp =>
        unfold deleteTask
        rw [hc]
        cases cp.tasks.find? (fun x => x.id == tid) <;> exact progressOK_updateProject _ _ now
  · intro h
    cases hc : s.currentProject with
    | none => rw [undo_of_none s now hc]; exact hnone s hc
    | some cp =>
        obtain ⟨a, ha⟩ : ∃ a, s.undoStack.getLast? = some a := by
          rw [← List.dropLast_append_getLast h, List.getLast?_concat]
          exact ⟨_, rfl⟩
        rw [undo_fire s cp a now hc ha]
        exact progressOK_updateProject _ _ now
  · intro h
    cases hc : s.currentProject with
    | none => rw [redo_of_none s now hc]; exact hnone s hc
    | some cp =>
        obtain ⟨a, ha⟩ : ∃ a, s.redoStack.getLast? = some a := by
          rw [← List.dropLast_append_getLast h, List.getLast?_concat]
          exact ⟨_, rfl⟩
        rw [redo_fire s cp a now hc ha]
        exact progressOK_updateProject _ _ now

/-- Claim C5 witness at a concrete store with nonempty history stacks. -/
theorem c5_progress_never_stale_witness :
    soloStore.undoStack ≠ [] ∧ soloStore.undoStack ≠ [] ∧
    ({ soloStore with redoStack := [mkItem 1] } : Store).redoStack ≠ [] ∧
    (progressOK (addTask soloStore ⟨9, 0, true⟩ 3) = true ∧
      progressOK (updateTask soloStore ⟨9, 0, true⟩ 3) = true ∧
      progressOK (deleteTask soloStore 9 3) = true ∧
      progressOK (updateProject soloStore emptyProject 3) = true ∧
      (soloStore.undoStack ≠ [] → progressOK (undo soloStore 3) = true) ∧
      (soloStore.redoStack ≠ [] → progressOK (redo soloStore 3) = true)) :=
  ⟨by decide, by decide, by decide,
    c5_progress_never_stale soloStore ⟨9, 0, true⟩ ⟨9, 0, true⟩ emptyProject 9 3⟩


/-- Claim C6: a `saveProject` call with an active project moves the machine to
SAVED with `hasUnsavedChanges = false` and clears both history stacks. -/
theorem c6_save_resets_history (s : Store) (cp : Project) (now : Nat)
    (hcp : s.currentProject = some cp) :
    (saveProject s now).1.projectState.currentState = SaveState.SAVED ∧
    (saveProject s now).1.projectState.hasUnsavedChanges = false ∧
    (saveProject s now).1.undoStack = [] ∧
    (saveProject s now).1.redoStack = [] := by
  unfold saveProject
  rw [hcp]
  exact ⟨rfl, rfl, rfl, rfl⟩

/-- Store sitting in DIRTY with pending history, for witnesses. -/
def dirtyStore : Store :=
  { soloStore with
    projectState :=
      { baseState with currentState := SaveState.DIRTY, hasUnsavedChanges := true } }

/-- Claim C6 witness on a dirty store with pending history. -/
theorem c6_save_resets_history_witness :
    dirtyStore.currentProject = some emptyProject ∧
    ((saveProject dirtyStore 4).1.projectState.currentState = SaveState.SAVED ∧
      (saveProject dirtyStore 4).1.projectState.hasUnsavedChanges = false ∧
      (saveProject dirtyStore 4).1.undoStack = [] ∧
      (saveProject dirtyStore 4).1.redoStack = []) :=
  ⟨rfl, c6_save_resets_history dirtyStore emptyProject 4 rfl⟩

/-- Claim C7: `createProject` puts the machine in UNTITLED with
`hasUnsavedChanges = false` and `isUntitled = true`, and clears both stacks. -/
theorem c7_create_untitled (s : Store) (name freshId now : Nat) :
    (createProject s name freshId now).projectState.currentState = SaveState.UNTITLED ∧
    (createProject s name freshId now).projectState.hasUnsavedChanges = false ∧
    (createProject s name freshId now).projectState.isUntitled = true ∧
    (createProject s name freshId now).undoStack = [] ∧
    (createProject s name freshId now).redoStack = [] :=
  ⟨rfl, rfl, rfl, rfl, rfl⟩

/-- Claim C8: `restoreSnapshot` against a name the backend has no package for
changes nothing — the whole store, hence `currentProject`, `projects` and
`projectState`, is returned as it was. -/
theorem c8_restore_missing_is_noop (backend : Nat → Option Package) (name : Nat) (s : Store)
    (now : Nat) (h : backend name = none) :
    restoreSnapshot backend name s now = s := by
  unfold restoreSnapshot
  rw [h]

/-- Claim C8 witness with an empty backend. -/
theorem c8_restore_missing_is_noop_witness :
    (fun _ : Nat => (none : Option Package)) 12 = none ∧
    restoreSnapshot (fun _ => none) 12 soloStore 9 = soloStore :=
  ⟨rfl, c8_restore_missing_is_noop (fun _ => none) 12 soloStore 9 rfl⟩

/-- Claim C9: one firing of the autosave timer returns the store unchanged —
no transition to SAVED, no clearing of `hasUnsavedChanges`, stacks and
projects untouched — and emits a snapshot package exactly when the timer flag
is active, a project is loaded, and `hasUnsavedChanges` is set. -/
theorem c9_autosave_is_silent (s : Store) (now : Nat) :
    (autosaveTick s now).1 = s ∧
    (autosaveTick s now).2.isSome =
      (decide (s.projectState.autosaveTimer = TimerState.active) &&
        s.currentProject.isSome && s.projectState.hasUnsavedChanges) := by
  by_cases ht : s.projectState.autosaveTimer = TimerState.active <;>
    cases hc : s.currentProject <;>
      cases hu : s.projectState.hasUnsavedChanges <;>
        simp [autosaveTick, ht, hc, hu]

/-- Claim C10 counterexample: deleting the only project while it is active
routes through `createProject`, which clears the undo stack — pending history
does not survive. -/
theorem c10_counterexample :
    soloStore.undoStack = [mkItem 0] ∧
    (deleteProject soloStore emptyProject.id 1 1 0).undoStack = [] := by
  decide

/-- Claim C10 amended: `setCurrentProject` always leaves both history stacks
unchanged, and `deleteProject` leaves them unchanged provided some project
other than the deleted one remains; only deleting the active project when no
other project is left routes through `createProject` and clears both
stacks. -/
theorem c10_switch_preserves_history (s : Store) (p : Project) (pid name freshId now : Nat)
    (h : s.projects.filter (fun q => q.id != pid) ≠ []) :
    (setCurrentProject s p).undoStack = s.undoStack ∧
    (setCurrentProject s p).redoStack = s.redoStack ∧
    (deleteProject s pid name freshId now).undoStack = s.undoStack ∧
    (deleteProject s pid name freshId now).redoStack = s.redoStack := by
  refine ⟨rfl, rfl, ?_, ?_⟩ <;>
  · unfold deleteProject
    cases hc : s.currentProject with
    | none => rfl
    | some cp =>
        dsimp only
        by_cases hid : cp.id = pid
        · rw [if_pos hid]
          cases hrem : s.projects.filter (fun q => q.id != pid) with
          | nil => exact absurd hrem h
          | cons p0 rest => rfl
        · rw [if_neg hid]

/-- Store with two projects, the first one active. -/
def twoStore : Store :=
  { projects := [emptyProject, createEmptyProject 1 1 0]
    currentProject := some emptyProject
    undoStack := [mkItem 0]
    redoStack := [mkItem 1]
    projectState := baseState }

/-- Claim C10 amended witness: deleting the active project of a two-project
store keeps both stacks because another project remains. -/
theorem c10_switch_preserves_history_witness :
    twoStore.projects.filter (fun q => q.id != 0) ≠ [] ∧
    ((setCurrentProject twoStore emptyProject).undoStack = twoStore.undoStack ∧
      (setCurrentProject twoStore emptyProject).redoStack = twoStore.redoStack ∧
      (deleteProject twoStore 0 5 5 5).undoStack = twoStore.undoStack ∧
      (deleteProject twoStore 0 5 5 5).redoStack = twoStore.redoStack) :=
  ⟨by decide, c10_switch_preserves_history twoStore emptyProject 0 5 5 5 (by decide)⟩


/-! List helper lemmas for the roundtrip analysis. -/

theorem map_update_eq_self (ts : List Entity) (i : Nat) (v : Entity)
    (h : ∀ t ∈ ts, t.id = i → t = v) :
    ts.map (fun t => if t.id = i then v else t) = ts := by
  have hpt : ∀ t ∈ ts, (if t.id = i then v else t) = id t := by
    intro t ht
    by_cases hid : t.id = i
    · rw [if_pos hid, id]
      exact (h t ht hid).symm
    · rw [if_neg hid, id]
  rw [List.map_congr_left hpt, List.map_id]

theorem filter_ne_eq_self (ts : List Entity) (i : Nat) (h : ∀ t ∈ ts, t.id ≠ i) :
    ts.filter (fun t => t.id != i) = ts := by
  rw [List.filter_eq_self]
  intro t ht
  simpa using h t ht

theorem find_unique {l : List Entity} {i : Nat} {b : Entity}
    (hnd : (l.map Entity.id).Nodup) (hfind : l.find? (fun x => x.id == i) = some b) :
    ∀ y ∈ l, y.id = i → y = b := by
  induction l with
  | nil => simp at hfind
  | cons x xs ih =>
      rw [List.map_cons, List.nodup_cons] at hnd
      intro y hy hyid
      by_cases hx : x.id = i
      · have hb : b = x := by
          rw [List.find?_cons_of_pos _ (by simpa using hx)] at hfind
          exact (Option.some.inj hfind).symm
        rcases List.mem_cons.mp hy with h1 | h1
        · rw [h1, hb]
        · exact absurd (by rw [hx, ← hyid]; exact List.mem_map_of_mem Entity.id h1) hnd.1
      · rw [List.find?_cons_of_neg _ (by simpa using hx)] at hfind
        rcases List.mem_cons.mp hy with h1 | h1
        · exact absurd (h1 ▸ hyid) hx
        · exact ih hnd.2 hfind y h1 hyid

theorem filter_eq_singleton_of_find {l : List Entity} {i : Nat} {b : Entity}
    (hnd : (l.map Entity.id).Nodup) (hfind : l.find? (fun x => x.id == i) = some b) :
    l.filter (fun x => x.id == i) = [b] := by
  induction l with
  | nil => simp at hfind
  | cons x xs ih =>
      rw [List.map_cons, List.nodup_cons] at hnd
      by_cases hx : x.id = i
      · have hb : b = x := by
          rw [List.find?_cons_of_pos _ (by simpa using hx)] at hfind
          exact (Option.some.inj hfind).symm
        have htail : xs.filter (fun x => x.id == i) = [] := by
          rw [List.filter_eq_nil_iff]
          intro y hy hyi
          have hyid : y.id = i := by simpa using hyi
          exact hnd.1 (by rw [hx, ← hyid]; exact List.mem_map_of_mem Entity.id hy)
        rw [List.filter_cons, if_pos (show (x.id == i) = true by simpa using hx), htail, hb]
      · rw [List.find?_cons_of_neg _ (by simpa using hx)] at hfind
        rw [List.filter_cons, if_neg (show ¬ (x.id == i) = true by simpa using hx)]
        exact ih hnd.2 hfind

theorem perm_filter_ne_concat {l : List Entity} {i : Nat} {b : Entity}
    (hnd : (l.map Entity.id).Nodup) (hfind : l.find? (fun x => x.id == i) = some b) :
    List.Perm l (l.filter (fun x => x.id != i) ++ [b]) := by
  have hp : List.Perm (l.filter (fun x => x.id == i) ++
      l.filter (fun x => !(x.id == i))) l := List.filter_append_perm _ l
  have hne : (fun x : Entity => x.id != i) = (fun x : Entity => !(x.id == i)) := rfl
  rw [filter_eq_singleton_of_find hnd hfind] at hp
  rw [hne]
  exact (hp.symm).trans List.perm_append_comm

/-! Projections of the replay switches. -/

theorem applyUndo_tasks (cp : Project) (a : UndoItem) :
    (applyUndo cp a).tasks = undoTasksItem a cp.tasks := by
  cases a <;> rfl

theorem applyUndo_resources (cp : Project) (a : UndoItem) :
    (applyUndo cp a).resources = undoResItem a cp.resources := by
  cases a <;> rfl

theorem applyUndo_id (cp : Project) (a : UndoItem) : (applyUndo cp a).id = cp.id := by
  cases a <;> rfl

theorem applyRedo_tasks (cp : Project) (a : UndoItem) :
    (applyRedo cp a).tasks = redoTasksItem a cp.tasks := by
  cases a <;> rfl

theorem applyRedo_resources (cp : Project) (a : UndoItem) :
    (applyRedo cp a).resources = redoResItem a cp.resources := by
  cases a <;> rfl

theorem applyRedo_id (cp : Project) (a : UndoItem) : (applyRedo cp a).id = cp.id := by
  cases a <;> rfl

/-! Permutation congruence of the per-item replay effects. -/

theorem undoTasksItem_perm (a : UndoItem) {ts ts' : List Entity} (h : List.Perm ts ts') :
    List.Perm (undoTasksItem a ts) (undoTasksItem a ts') := by
  cases a with
  | addTask i aft => exact h.filter _
  | updateTask i b aft => exact h.map _
  | deleteTask i b => exact h.append_right _
  | addResource i aft => exact h
  | updateResource i b aft => exact h
  | deleteResource i b => exact h

theorem undoResItem_perm (a : UndoItem) {rs rs' : List Entity} (h : List.Perm rs rs') :
    List.Perm (undoResItem a rs) (undoResItem a rs') := by
  cases a with
  | addTask i aft => exact h
  | updateTask i b aft => exact h
  | deleteTask i b => exact h
  | addResource i aft => exact h.filter _
  | updateResource i b aft => exact h.map _
  | deleteResource i b => exact h.append_right _

theorem redoTasksItem_perm (a : UndoItem) {ts ts' : List Entity} (h : List.Perm ts ts') :
    List.Perm (redoTasksItem a ts) (redoTasksItem a ts') := by
  cases a with
  | addTask i aft => exact h.append_right _
  | updateTask i b aft => exact h.map _
  | deleteTask i b => exact h.filter _
  | addResource i aft => exact h
  | updateResource i b aft => exact h
  | deleteResource i b => exact h

theorem redoResItem_perm (a : UndoItem) {rs rs' : List Entity} (h : List.Perm rs rs') :
    List.Perm (redoResItem a rs) (redoResItem a rs') := by
  cases a with
  | addTask i aft => exact h
  | updateTask i b aft => exact h
  | deleteTask i b => exact h
  | addResource i aft => exact h.append_right _
  | updateResource i b aft => exact h.map _
  | deleteResource i b => exact h.filter _

theorem itemOK_perm (a : UndoItem) {ts ts' rs rs' : List Entity}
    (hT : List.Perm ts ts') (hR : List.Perm rs rs') (h : itemOK ts rs a) :
    itemOK ts' rs' a := by
  cases a with
  | addTask i aft =>
      have hp := (hT.filter (fun t => t.id == i)).symm
      rw [h] at hp
      exact List.perm_singleton.mp hp
  | updateTask i b aft => exact ⟨h.1, fun t ht hid => h.2 t (hT.mem_iff.mpr ht) hid⟩
  | deleteTask i b => exact ⟨h.1, fun t ht => h.2 t (hT.mem_iff.mpr ht)⟩
  | addResource i aft =>
      have hp := (hR.filter (fun r => r.id == i)).symm
      rw [h] at hp
      exact List.perm_singleton.mp hp
  | updateResource i b aft => exact ⟨h.1, fun r hr hid => h.2 r (hR.mem_iff.mpr hr) hid⟩
  | deleteResource i b => exact ⟨h.1, fun r hr => h.2 r (hR.mem_iff.mpr hr)⟩

theorem consistentRev_perm (l : List UndoItem) : ∀ {ts ts' rs rs' : List Entity},
    List.Perm ts ts' → List.Perm rs rs' → consistentRev ts rs l → consistentRev ts' rs' l := by
  induction l with
  | nil => intro ts ts' rs rs' _ _ _; trivial
  | cons a rest ih =>
      intro ts ts' rs rs' hT hR h
      exact ⟨itemOK_perm a hT hR h.1,
        ih (undoTasksItem_perm a hT) (undoResItem_perm a hR) h.2⟩

theorem stackConsistent_perm {ts ts' rs rs' : List Entity} (stack : List UndoItem)
    (hT : List.Perm ts ts') (hR : List.Perm rs rs')
    (h : StackConsistent ts rs stack) : StackConsistent ts' rs' stack :=
  consistentRev_perm stack.reverse hT hR h

theorem stackConsistent_concat (ts rs : List Entity) (U : List UndoItem) (a : UndoItem) :
    StackConsistent ts rs (U ++ [a]) ↔
      itemOK ts rs a ∧ StackConsistent (undoTasksItem a ts) (undoResItem a rs) U := by
  unfold StackConsistent
  rw [List.reverse_append, List.reverse_singleton, List.singleton_append]
  exact Iff.rfl


/-- Composite replacement performed by undoing then redoing an update item. -/
theorem undo_redo_update_cancel (ts : List Entity) (i : Nat) (b v : Entity)
    (hb : b.id = i) (hall : ∀ t ∈ ts, t.id = i → t = v) :
    (ts.map (fun t => if t.id = i then b else t)).map (fun t => if t.id = i then v else t)
      = ts := by
  rw [List.map_map]
  have hpt : ∀ t ∈ ts,
      ((fun t => if t.id = i then v else t) ∘ (fun t => if t.id = i then b else t)) t = id t := by
    intro t ht
    by_cases hid : t.id = i
    · simp only [Function.comp, if_pos hid, if_pos hb, id]
      exact (hall t ht hid).symm
    · simp only [Function.comp, if_neg hid, id]
  rw [List.map_congr_left hpt, List.map_id]

/-- Redoing an item cancels undoing it on the task list, given applicability. -/
theorem redo_undo_tasks_perm (a : UndoItem) (ts rs : List Entity) (hok : itemOK ts rs a) :
    List.Perm (redoTasksItem a (undoTasksItem a ts)) ts := by
  cases a with
  | addTask i aft =>
      have hp : List.Perm (ts.filter (fun t => t.id == i) ++
          ts.filter (fun x => !(x.id == i))) ts := List.filter_append_perm _ ts
      rw [hok] at hp
      show List.Perm (ts.filter (fun t => t.id != i) ++ [aft]) ts
      exact List.perm_append_comm.trans hp
  | updateTask i b aft =>
      show List.Perm ((ts.map fun t => if t.id = i then b else t).map
        fun t => if t.id = i then aft else t) ts
      rw [undo_redo_update_cancel ts i b aft hok.1 hok.2]
  | deleteTask i b =>
      show List.Perm ((ts ++ [b]).filter (fun t => t.id != i)) ts
      rw [List.filter_append, filter_ne_eq_self ts i hok.2]
      have hbf : [b].filter (fun t => t.id != i) = [] := by
        rw [List.filter_eq_nil_iff]
        intro y hy
        rw [List.mem_singleton.mp hy]
        simp [hok.1]
      rw [hbf, List.append_nil]
  | addResource i aft => exact List.Perm.refl ts
  | updateResource i b aft => exact List.Perm.refl ts
  | deleteResource i b => exact List.Perm.refl ts

/-- Redoing an item cancels undoing it on the resource list, given
applicability. -/
theorem redo_undo_res_perm (a : UndoItem) (ts rs : List Entity) (hok : itemOK ts rs a) :
    List.Perm (redoResItem a (undoResItem a rs)) rs := by
  cases a with
  | addTask i aft => exact List.Perm.refl rs
  | updateTask i b aft => exact List.Perm.refl rs
  | deleteTask i b => exact List.Perm.refl rs
  | addResource i aft =>
      have hp : List.Perm (rs.filter (fun r => r.id == i) ++
          rs.filter (fun x => !(x.id == i))) rs := List.filter_append_perm _ rs
      rw [hok] at hp
      show List.Perm (rs.filter (fun r => r.id != i) ++ [aft]) rs
      exact List.perm_append_comm.trans hp
  | updateResource i b aft =>
      show List.Perm ((rs.map fun r => if r.id = i then b else r).map
        fun r => if r.id = i then aft else r) rs
      rw [undo_redo_update_cancel rs i b aft hok.1 hok.2]
  | deleteResource i b =>
      show List.Perm ((rs ++ [b]).filter (fun r => r.id != i)) rs
      rw [List.filter_append, filter_ne_eq_self rs i hok.2]
      have hbf : [b].filter (fun r => r.id != i) = [] := by
        rw [List.filter_eq_nil_iff]
        intro y hy
        rw [List.mem_singleton.mp hy]
        simp [hok.1]
      rw [hbf, List.append_nil]

theorem storeEquiv_refl (s : Store) : StoreEquiv s s := by
  refine ⟨rfl, rfl, ?_⟩
  cases s.currentProject with
  | none => trivial
  | some cp => exact ⟨rfl, List.Perm.refl _, List.Perm.refl _⟩

theorem storeEquiv_trans {a b c : Store} (h1 : StoreEquiv a b) (h2 : StoreEquiv b c) :
    StoreEquiv a c := by
  obtain ⟨hu1, hr1, hm1⟩ := h1
  obtain ⟨hu2, hr2, hm2⟩ := h2
  refine ⟨hu1.trans hu2, hr1.trans hr2, ?_⟩
  cases ha : a.currentProject with
  | none =>
      cases hb : b.currentProject with
      | none =>
          cases hc : c.currentProject with
          | none => trivial
          | some cq => rw [hb, hc] at hm2; exact hm2.elim
      | some cq => rw [ha, hb] at hm1; exact hm1.elim
  | some cp =>
      cases hb : b.currentProject with
      | none => rw [ha, hb] at hm1; exact hm1.elim
      | some cq =>
          cases hc : c.currentProject with
          | none => rw [hb, hc] at hm2; exact hm2.elim
          | some cr =>
              rw [ha, hb] at hm1
              rw [hb, hc] at hm2
              exact ⟨hm1.1.trans hm2.1, hm1.2.1.trans hm2.2.1, hm1.2.2.trans hm2.2.2⟩

/-- One `undo` immediately followed by one `redo` restores the store up to
`StoreEquiv`, provided the popped item is applicable. -/
theorem redo_undo_cancel (s : Store) (cp : Project) (a : UndoItem) (now : Nat)
    (hcp : s.currentProject = some cp)
    (hU : s.undoStack = s.undoStack.dropLast ++ [a])
    (hok : itemOK cp.tasks cp.resources a) :
    StoreEquiv (redo (undo s now) now) s := by
  have ha : s.undoStack.getLast? = some a := by
    conv_lhs => rw [hU]
    exact List.getLast?_concat _
  rw [undo_fire s cp a now hcp ha]
  have ha2 : (updateProject
      { s with undoStack := s.undoStack.dropLast, redoStack := s.redoStack ++ [a] }
      (applyUndo cp a) now).redoStack.getLast? = some a := by
    rw [updateProject_redoStack]
    exact List.getLast?_concat _
  rw [redo_fire _ _ a now (updateProject_currentProject _ _ _) ha2]
  refine ⟨?_, ?_, ?_⟩
  · show s.undoStack.dropLast ++ [a] = s.undoStack
    exact hU.symm
  · show (s.redoStack ++ [a]).dropLast = s.redoStack
    exact List.dropLast_concat
  · rw [hcp, updateProject_currentProject]
    refine ⟨?_, ?_, ?_⟩
    · rw [applyRedo_id]
      exact applyUndo_id cp a
    · rw [applyRedo_tasks, applyUndo_tasks]
      exact redo_undo_tasks_perm a cp.tasks cp.resources hok
    · rw [applyRedo_resources, applyUndo_resources]
      exact redo_undo_res_perm a cp.tasks cp.resources hok


/-- `redo` respects store equivalence. -/
theorem redo_congr (s t : Store) (now : Nat) (h : StoreEquiv s t) :
    StoreEquiv (redo s now) (redo t now) := by
  obtain ⟨hu, hr, hm⟩ := h
  cases hcs : s.currentProject with
  | none =>
      cases hct : t.currentProject with
      | none =>
          rw [redo_of_none s now hcs, redo_of_none t now hct]
          exact ⟨hu, hr, hm⟩
      | some cq => rw [hcs, hct] at hm; exact hm.elim
  | some cp =>
      cases hct : t.currentProject with
      | none => rw [hcs, hct] at hm; exact hm.elim
      | some cq =>
          rw [hcs, hct] at hm
          cases hl : s.redoStack.getLast? with
          | none =>
              have hl2 : t.redoStack.getLast? = none := by rw [← hr]; exact hl
              have e1 : redo s now = s := by unfold redo; rw [hcs, hl]
              have e2 : redo t now = t := by unfold redo; rw [hct, hl2]
              rw [e1, e2]
              refine ⟨hu, hr, ?_⟩
              rw [hcs, hct]
              exact hm
          | some a =>
              have hl2 : t.redoStack.getLast? = some a := by rw [← hr]; exact hl
              rw [redo_fire s cp a now hcs hl, redo_fire t cq a now hct hl2]
              refine ⟨?_, ?_, ?_⟩
              · show s.undoStack ++ [a] = t.undoStack ++ [a]
                rw [hu]
              · show s.redoStack.dropLast = t.redoStack.dropLast
                rw [hr]
              · rw [updateProject_currentProject, updateProject_currentProject]
                refine ⟨?_, ?_, ?_⟩
                · rw [applyRedo_id, applyRedo_id]
                  exact hm.1
                · rw [applyRedo_tasks, applyRedo_tasks]
                  exact redoTasksItem_perm a hm.2.1
                · rw [applyRedo_resources, applyRedo_resources]
                  exact redoResItem_perm a hm.2.2

/-- Undoing N items and then redoing N items restores the store up to
`StoreEquiv`, provided the stack is consistent with the collections and N is
within the stack depth. -/
theorem cascade_roundtrip (N : Nat) : ∀ (s : Store) (cp : Project) (now : Nat),
    s.currentProject = some cp →
    StackConsistent cp.tasks cp.resources s.undoStack →
    N ≤ s.undoStack.length →
    StoreEquiv (redoN N (undoN N s now) now) s := by
  induction N with
  | zero => intro s cp now _ _ _; exact storeEquiv_refl s
  | succ n ih =>
      intro s cp now hcp hsc hlen
      have hne : s.undoStack ≠ [] := by
        intro h
        rw [h] at hlen
        exact absurd hlen (by simp)
      have hsplit : s.undoStack = s.undoStack.dropLast ++ [s.undoStack.getLast hne] :=
        (List.dropLast_append_getLast hne).symm
      have ha : s.undoStack.getLast? = some (s.undoStack.getLast hne) := by
        conv_lhs => rw [hsplit]
        exact List.getLast?_concat _
      obtain ⟨hok, htail⟩ := (stackConsistent_concat cp.tasks cp.resources _ _).mp
        (hsplit ▸ hsc)
      have hfire := undo_fire s cp (s.undoStack.getLast hne) now hcp ha
      have hih := ih (undo s now)
        { applyUndo cp (s.undoStack.getLast hne) with
          progress := calculateProjectProgress (applyUndo cp (s.undoStack.getLast hne)).tasks,
          updatedAt := now }
        now
        (by rw [hfire]; exact updateProject_currentProject _ _ _)
        (by
          rw [hfire, updateProject_undoStack]
          show StackConsistent _ _ _
          have hT : ({ applyUndo cp (s.undoStack.getLast hne) with
              progress :=
                calculateProjectProgress (applyUndo cp (s.undoStack.getLast hne)).tasks,
              updatedAt := now } : Project).tasks =
              undoTasksItem (s.undoStack.getLast hne) cp.tasks := applyUndo_tasks _ _
          have hR : ({ applyUndo cp (s.undoStack.getLast hne) with
              progress :=
                calculateProjectProgress (applyUndo cp (s.undoStack.getLast hne)).tasks,
              updatedAt := now } : Project).resources =
              undoResItem (s.undoStack.getLast hne) cp.resources := applyUndo_resources _ _
          rw [hT, hR]
          exact htail)
        (by
          rw [hfire, updateProject_undoStack]
          show n ≤ s.undoStack.dropLast.length
          rw [List.length_dropLast]
          omega)
      have hcancel := redo_undo_cancel s cp (s.undoStack.getLast hne) now hcp hsplit hok
      show StoreEquiv (redo (redoN n (undoN n (undo s now) now) now) now) s
      exact storeEquiv_trans (redo_congr _ _ now hih) hcancel


theorem addResource_eq (s : Store) (cp : Project) (r : Entity) (now : Nat)
    (hcp : s.currentProject = some cp) :
    addResource s r now =
      updateProject (pushUndo s (UndoItem.addResource r.id r))
        { cp with resources := cp.resources ++ [r] } now := by
  unfold addResource
  rw [hcp]

theorem updateTask_eq_found (s : Store) (cp : Project) (u old : Entity) (now : Nat)
    (hcp : s.currentProject = some cp)
    (hfind : cp.tasks.find? (fun t => t.id == u.id) = some old) :
    updateTask s u now =
      updateProject (pushUndo s (UndoItem.updateTask u.id old u))
        { cp with tasks := cp.tasks.map (fun t => if t.id = u.id then u else t) } now := by
  unfold updateTask
  rw [hcp]
  dsimp only
  rw [hfind]

theorem updateTask_eq_missing (s : Store) (cp : Project) (u : Entity) (now : Nat)
    (hcp : s.currentProject = some cp)
    (hfind : cp.tasks.find? (fun t => t.id == u.id) = none) :
    updateTask s u now =
      updateProject s
        { cp with tasks := cp.tasks.map (fun t => if t.id = u.id then u else t) } now := by
  unfold updateTask
  rw [hcp]
  dsimp only
  rw [hfind]

theorem deleteTask_eq_found (s : Store) (cp : Project) (tid : Nat) (old : Entity) (now : Nat)
    (hcp : s.currentProject = some cp)
    (hfind : cp.tasks.find? (fun t => t.id == tid) = some old) :
    deleteTask s tid now =
      updateProject (pushUndo s (UndoItem.deleteTask tid old))
        { cp with tasks := cp.tasks.filter (fun t => t.id != tid) } now := by
  unfold deleteTask
  rw [hcp]
  dsimp only
  rw [hfind]

theorem updateResource_eq_found (s : Store) (cp : Project) (u old : Entity) (now : Nat)
    (hcp : s.currentProject = some cp)
    (hfind : cp.resources.find? (fun r => r.id == u.id) = some old) :
    updateResource s u now =
      updateProject (pushUndo s (UndoItem.updateResource u.id old u))
        { cp with resources := cp.resources.map (fun r => if r.id = u.id then u else r) } now := by
  unfold updateResource
  rw [hcp]
  dsimp only
  rw [hfind]

theorem updateResource_eq_missing (s : Store) (cp : Project) (u : Entity) (now : Nat)
    (hcp : s.currentProject = some cp)
    (hfind : cp.resources.find? (fun r => r.id == u.id) = none) :
    updateResource s u now =
      updateProject s
        { cp with resources := cp.resources.map (fun r => if r.id = u.id then u else r) } now := by
  unfold updateResource
  rw [hcp]
  dsimp only
  rw [hfind]

theorem deleteResource_eq_found (s : Store) (cp : Project) (rid : Nat) (old : Entity)
    (now : Nat) (hcp : s.currentProject = some cp)
    (hfind : cp.resources.find? (fun r => r.id == rid) = some old) :
    deleteResource s rid now =
      updateProject (pushUndo s (UndoItem.deleteResource rid old))
        { cp with resources := cp.resources.filter (fun r => r.id != rid) } now := by
  unfold deleteResource
  rw [hcp]
  dsimp only
  rw [hfind]


/-- One mutator call preserves the store invariant: active project with
unique-id collections and a consistent undo stack, growing the stack by at
most one entry. -/
theorem applyOp_preserves_inv (s : Store) (op : Op) (now : Nat) (cp : Project)
    (hcp : s.currentProject = some cp)
    (hndT : (cp.tasks.map Entity.id).Nodup)
    (hndR : (cp.resources.map Entity.id).Nodup)
    (hsc : StackConsistent cp.tasks cp.resources s.undoStack)
    (hlen : s.undoStack.length ≤ 49)
    (hf : freshOk s op = true) :
    ∃ cq, (applyOp s op now).currentProject = some cq ∧
      (cq.tasks.map Entity.id).Nodup ∧
      (cq.resources.map Entity.id).Nodup ∧
      StackConsistent cq.tasks cq.resources (applyOp s op now).undoStack ∧
      (applyOp s op now).undoStack.length ≤ s.undoStack.length + 1 := by
  cases op with
  | addTask t =>
      unfold freshOk at hf
      rw [hcp] at hf
      have hfresh : ∀ x ∈ cp.tasks, x.id ≠ t.id := by
        intro x hx
        simpa using List.all_eq_true.mp hf x hx
      have hnotmem : t.id ∉ cp.tasks.map Entity.id := by
        intro hmem
        obtain ⟨x, hx, hxid⟩ := List.mem_map.mp hmem
        exact hfresh x hx hxid
      simp only [applyOp]
      rw [addTask_eq s cp t now hcp]
      refine ⟨_, updateProject_currentProject _ _ _, ?_, hndR, ?_, ?_⟩
      · show ((cp.tasks ++ [t]).map Entity.id).Nodup
        rw [List.map_append, List.nodup_append]
        refine ⟨hndT, List.nodup_singleton t.id, ?_⟩
        simpa [List.disjoint_singleton] using hnotmem
      · rw [updateProject_undoStack, pushUndo_stack_small s _ hlen]
        apply (stackConsistent_concat _ _ _ _).mpr
        constructor
        · show (cp.tasks ++ [t]).filter (fun x => x.id == t.id) = [t]
          rw [List.filter_append]
          have h1 : cp.tasks.filter (fun x => x.id == t.id) = [] := by
            rw [List.filter_eq_nil_iff]
            intro x hx
            simpa using hfresh x hx
          have h2 : [t].filter (fun x => x.id == t.id) = [t] := by simp
          rw [h1, h2, List.nil_append]
        · show StackConsistent ((cp.tasks ++ [t]).filter (fun x => x.id != t.id))
            cp.resources s.undoStack
          have h3 : (cp.tasks ++ [t]).filter (fun x => x.id != t.id) = cp.tasks := by
            rw [List.filter_append, filter_ne_eq_self cp.tasks t.id hfresh]
            have h4 : [t].filter (fun x => x.id != t.id) = [] := by simp
            rw [h4, List.append_nil]
          rw [h3]
          exact hsc
      · rw [updateProject_undoStack, pushUndo_stack_small s _ hlen]
        simp
  | updateTask u =>
      simp only [applyOp]
      cases hfind : cp.tasks.find? (fun x => x.id == u.id) with
      | some old =>
          have hoid : old.id = u.id := by simpa using List.find?_some hfind
          have huniq : ∀ y ∈ cp.tasks, y.id = u.id → y = old := find_unique hndT hfind
          rw [updateTask_eq_found s cp u old now hcp hfind]
          refine ⟨_, updateProject_currentProject _ _ _, ?_, hndR, ?_, ?_⟩
          · show (((cp.tasks.map fun t => if t.id = u.id then u else t).map Entity.id)).Nodup
            have hids : (cp.tasks.map fun t => if t.id = u.id then u else t).map Entity.id =
                cp.tasks.map Entity.id := by
              rw [List.map_map]
              apply List.map_congr_left
              intro x hx
              by_cases h : x.id = u.id
              · simp [Function.comp, h]
              · simp [Function.comp, h]
            rw [hids]
            exact hndT
          · rw [updateProject_undoStack, pushUndo_stack_small s _ hlen]
            apply (stackConsistent_concat _ _ _ _).mpr
            constructor
            · refine ⟨hoid, ?_⟩
              intro x hx hxid
              obtain ⟨y, hy, hxy⟩ := List.mem_map.mp hx
              by_cases h : y.id = u.id
              · rw [← hxy, if_pos h]
              · rw [← hxy, if_neg h] at hxid ⊢
                exact absurd hxid h
            · show StackConsistent
                ((cp.tasks.map fun t => if t.id = u.id then u else t).map
                  fun t => if t.id = u.id then old else t)
                cp.resources s.undoStack
              rw [undo_redo_update_cancel cp.tasks u.id u old rfl huniq]
              exact hsc
          · rw [updateProject_undoStack, pushUndo_stack_small s _ hlen]
            simp
      | none =>
          have hnone : ∀ x ∈ cp.tasks, x.id ≠ u.id := by
            intro x hx
            simpa using List.find?_eq_none.mp hfind x hx
          have hmap : cp.tasks.map (fun t => if t.id = u.id then u else t) = cp.tasks :=
            map_update_eq_self cp.tasks u.id u (fun t ht hid => absurd hid (hnone t ht))
          rw [updateTask_eq_missing s cp u now hcp hfind, hmap]
          refine ⟨_, updateProject_currentProject _ _ _, hndT, hndR, ?_, ?_⟩
          · rw [updateProject_undoStack]
            exact hsc
          · rw [updateProject_undoStack]
            exact Nat.le_succ _
  | deleteTask tid =>
      simp only [applyOp]
      cases hfind : cp.tasks.find? (fun x => x.id == tid) with
      | some old =>
          have hoid : old.id = tid := by simpa using List.find?_some hfind
          rw [deleteTask_eq_found s cp tid old now hcp hfind]
          refine ⟨_, updateProject_currentProject _ _ _, ?_, hndR, ?_, ?_⟩
          · show (((cp.tasks.filter fun t => t.id != tid).map Entity.id)).Nodup
            exact hndT.sublist ((List.filter_sublist cp.tasks).map Entity.id)
          · rw [updateProject_undoStack, pushUndo_stack_small s _ hlen]
            apply (stackConsistent_concat _ _ _ _).mpr
            constructor
            · refine ⟨hoid, ?_⟩
              intro x hx
              have := (List.mem_filter.mp hx).2
              simpa using this
            · show StackConsistent ((cp.tasks.filter fun t => t.id != tid) ++ [old])
                cp.resources s.undoStack
              exact stackConsistent_perm s.undoStack (perm_filter_ne_concat hndT hfind)
                (List.Perm.refl _) hsc
          · rw [updateProject_undoStack, pushUndo_stack_small s _ hlen]
            simp
      | none =>
          have hnone : ∀ x ∈ cp.tasks, x.id ≠ tid := by
            intro x hx
            simpa using List.find?_eq_none.mp hfind x hx
          have hfil : cp.tasks.filter (fun t => t.id != tid) = cp.tasks :=
            filter_ne_eq_self cp.tasks tid hnone
          rw [deleteTask_eq_of_missing s cp tid now hcp hfind, hfil]
          refine ⟨_, updateProject_currentProject _ _ _, hndT, hndR, ?_, ?_⟩
          · rw [updateProject_undoStack]
            exact hsc
          · rw [updateProject_undoStack]
            exact Nat.le_succ _
  | addResource r =>
      unfold freshOk at hf
      rw [hcp] at hf
      have hfresh : ∀ x ∈ cp.resources, x.id ≠ r.id := by
        intro x hx
        simpa using List.all_eq_true.mp hf x hx
      have hnotmem : r.id ∉ cp.resources.map Entity.id := by
        intro hmem
        obtain ⟨x, hx, hxid⟩ := List.mem_map.mp hmem
        exact hfresh x hx hxid
      simp only [applyOp]
      rw [addResource_eq s cp r now hcp]
      refine ⟨_, updateProject_currentProject _ _ _, hndT, ?_, ?_, ?_⟩
      · show ((cp.resources ++ [r]).map Entity.id).Nodup
        rw [List.map_append, List.nodup_append]
        refine ⟨hndR, List.nodup_singleton r.id, ?_⟩
        simpa [List.disjoint_singleton] using hnotmem
      · rw [updateProject_undoStack, pushUndo_stack_small s _ hlen]
        apply (stackConsistent_concat _ _ _ _).mpr
        constructor
        · show (cp.resources ++ [r]).filter (fun x => x.id == r.id) = [r]
          rw [List.filter_append]
          have h1 : cp.resources.filter (fun x => x.id == r.id) = [] := by
            rw [List.filter_eq_nil_iff]
            intro x hx
            simpa using hfresh x hx
          have h2 : [r].filter (fun x => x.id == r.id) = [r] := by simp
          rw [h1, h2, List.nil_append]
        · show StackConsistent cp.tasks
            ((cp.resources ++ [r]).filter (fun x => x.id != r.id)) s.undoStack
          have h3 : (cp.resources ++ [r]).filter (fun x => x.id != r.id) = cp.resources := by
            rw [List.filter_append, filter_ne_eq_self cp.resources r.id hfresh]
            have h4 : [r].filter (fun x => x.id != r.id) = [] := by simp
            rw [h4, List.append_nil]
          rw [h3]
          exact hsc
      · rw [updateProject_undoStack, pushUndo_stack_small s _ hlen]
        simp
  | updateResource u =>
      simp only [applyOp]
      cases hfind : cp.resources.find? (fun x => x.id == u.id) with
      | some old =>
          have hoid : old.id = u.id := by simpa using List.find?_some hfind
          have huniq : ∀ y ∈ cp.resources, y.id = u.id → y = old := find_unique hndR hfind
          rw [updateResource_eq_found s cp u old now hcp hfind]
          refine ⟨_, updateProject_currentProject _ _ _, hndT, ?_, ?_, ?_⟩
          · show (((cp.resources.map fun r => if r.id = u.id then u else r).map
              Entity.id)).Nodup
            have hids : (cp.resources.map fun r => if r.id = u.id then u else r).map
                Entity.id = cp.resources.map Entity.id := by
              rw [List.map_map]
              apply List.map_congr_left
              intro x hx
              by_cases h : x.id = u.id
              · simp [Function.comp, h]
              · simp [Function.comp, h]
            rw [hids]
            exact hndR
          · rw [updateProject_undoStack, pushUndo_stack_small s _ hlen]
            apply (stackConsistent_concat _ _ _ _).mpr
            constructor
            · refine ⟨hoid, ?_⟩
              intro x hx hxid
              obtain ⟨y, hy, hxy⟩ := List.mem_map.mp hx
              by_cases h : y.id = u.id
              · rw [← hxy, if_pos h]
              · rw [← hxy, if_neg h] at hxid ⊢
                exact absurd hxid h
            · show StackConsistent cp.tasks
                ((cp.resources.map fun r => if r.id = u.id then u else r).map
                  fun r => if r.id = u.id then old else r) s.undoStack
              rw [undo_redo_update_cancel cp.resources u.id u old rfl huniq]
              exact hsc
          · rw [updateProject_undoStack, pushUndo_stack_small s _ hlen]
            simp
      | none =>
          have hnone : ∀ x ∈ cp.resources, x.id ≠ u.id := by
            intro x hx
            simpa using List.find?_eq_none.mp hfind x hx
          have hmap : cp.resources.map (fun r => if r.id = u.id then u else r) =
              cp.resources :=
            map_update_eq_self cp.resources u.id u (fun t ht hid => absurd hid (hnone t ht))
          rw [updateResource_eq_missing s cp u now hcp hfind, hmap]
          refine ⟨_, updateProject_currentProject _ _ _, hndT, hndR, ?_, ?_⟩
          · rw [updateProject_undoStack]
            exact hsc
          · rw [updateProject_undoStack]
            exact Nat.le_succ _
  | deleteResource rid =>
      simp only [applyOp]
      cases hfind : cp.resources.find? (fun x => x.id == rid) with
      | some old =>
          have hoid : old.id = rid := by simpa using List.find?_some hfind
          rw [deleteResource_eq_found s cp rid old now hcp hfind]
          refine ⟨_, updateProject_currentProject _ _ _, hndT, ?_, ?_, ?_⟩
          · show (((cp.resources.filter fun r => r.id != rid).map Entity.id)).Nodup
            exact hndR.sublist ((List.filter_sublist cp.resources).map Entity.id)
          · rw [updateProject_undoStack, pushUndo_stack_small s _ hlen]
            apply (stackConsistent_concat _ _ _ _).mpr
            constructor
            · refine ⟨hoid, ?_⟩
              intro x hx
              have := (List.mem_filter.mp hx).2
              simpa using this
            · show StackConsistent cp.tasks
                ((cp.resources.filter fun r => r.id != rid) ++ [old]) s.undoStack
              exact stackConsistent_perm s.undoStack (List.Perm.refl _)
                (perm_filter_ne_concat hndR hfind) hsc
          · rw [updateProject_undoStack, pushUndo_stack_small s _ hlen]
            simp
      | none =>
          have hnone : ∀ x ∈ cp.resources, x.id ≠ rid := by
            intro x hx
            simpa using List.find?_eq_none.mp hfind x hx
          have hfil : cp.resources.filter (fun r => r.id != rid) = cp.resources :=
            filter_ne_eq_self cp.resources rid hnone
          rw [deleteResource_eq_of_missing s cp rid now hcp hfind, hfil]
          refine ⟨_, updateProject_currentProject _ _ _, hndT, hndR, ?_, ?_⟩
          · rw [updateProject_undoStack]
            exact hsc
          · rw [updateProject_undoStack]
            exact Nat.le_succ _


/-- A well-formed call sequence of at most `50 - depth` operations preserves
the store invariant, growing the stack by at most one entry per call. -/
theorem applyOps_preserves_inv (ops : List Op) : ∀ (s : Store) (now : Nat) (cp : Project),
    s.currentProject = some cp →
    (cp.tasks.map Entity.id).Nodup →
    (cp.resources.map Entity.id).Nodup →
    StackConsistent cp.tasks cp.resources s.undoStack →
    wfOps now s ops = true →
    s.undoStack.length + ops.length ≤ 50 →
    ∃ cq, (applyOps s ops now).currentProject = some cq ∧
      (cq.tasks.map Entity.id).Nodup ∧
      (cq.resources.map Entity.id).Nodup ∧
      StackConsistent cq.tasks cq.resources (applyOps s ops now).undoStack ∧
      (applyOps s ops now).undoStack.length ≤ s.undoStack.length + ops.length := by
  induction ops with
  | nil =>
      intro s now cp h1 h2 h3 h4 _ _
      exact ⟨cp, h1, h2, h3, h4, Nat.le_add_right _ _⟩
  | cons op rest ih =>
      intro s now cp h1 h2 h3 h4 hwf hlen
      have hwf2 : freshOk s op = true ∧ wfOps now (applyOp s op now) rest = true := by
        simpa [wfOps, Bool.and_eq_true] using hwf
      have hlen49 : s.undoStack.length ≤ 49 := by
        simp only [List.length_cons] at hlen
        omega
      obtain ⟨cq, hq1, hq2, hq3, hq4, hq5⟩ :=
        applyOp_preserves_inv s op now cp h1 h2 h3 h4 hlen49 hwf2.1
      have hstep : applyOps s (op :: rest) now = applyOps (applyOp s op now) rest now := rfl
      have hlen2 : (applyOp s op now).undoStack.length + rest.length ≤ 50 := by
        simp only [List.length_cons] at hlen
        omega
      obtain ⟨cr, hr1, hr2, hr3, hr4, hr5⟩ :=
        ih (applyOp s op now) now cq hq1 hq2 hq3 hq4 hwf2.2 hlen2
      rw [hstep]
      refine ⟨cr, hr1, hr2, hr3, hr4, ?_⟩
      simp only [List.length_cons]
      omega

/-- Claim C1 amended: starting from a store with an active project whose task
and resource ids are unique and an empty undo stack, running any
contract-respecting sequence of at most 50 add/update/delete operations (so
that the stack never overflows), then calling `undo` N times followed by
`redo` N times with N at most the undo-stack depth, returns the task and
resource collections to the pre-undo state up to permutation — that is, equal
as id-to-field-value collections. -/
theorem c1_undo_redo_roundtrip (s0 : Store) (cp0 cp1 : Project) (ops : List Op)
    (now N : Nat)
    (hcp : s0.currentProject = some cp0)
    (hT : (cp0.tasks.map Entity.id).Nodup)
    (hR : (cp0.resources.map Entity.id).Nodup)
    (hstack : s0.undoStack = [])
    (hlen : ops.length ≤ 50)
    (hwf : wfOps now s0 ops = true)
    (hN : N ≤ (applyOps s0 ops now).undoStack.length)
    (hcp1 : (applyOps s0 ops now).currentProject = some cp1) :
    ∃ cp2, (redoN N (undoN N (applyOps s0 ops now) now) now).currentProject = some cp2 ∧
      List.Perm cp2.tasks cp1.tasks ∧ List.Perm cp2.resources cp1.resources := by
  have hsc0 : StackConsistent cp0.tasks cp0.resources s0.undoStack := by
    rw [hstack]
    exact trivial
  obtain ⟨cq, hq1, _, _, hq4, _⟩ := applyOps_preserves_inv ops s0 now cp0 hcp hT hR hsc0 hwf
    (by rw [hstack]; simpa using hlen)
  have hcq : cq = cp1 := by
    rw [hq1] at hcp1
    exact Option.some.inj hcp1
  subst hcq
  obtain ⟨hu, hr, hm⟩ := cascade_roundtrip N (applyOps s0 ops now) cq now hq1 hq4 hN
  cases hres : (redoN N (undoN N (applyOps s0 ops now) now) now).currentProject with
  | none =>
      rw [hres, hq1] at hm
      exact hm.elim
  | some cp2 =>
      rw [hres, hq1] at hm
      exact ⟨cp2, rfl, hm.2.1, hm.2.2⟩

/-- Claim C1 counterexample: `opsEx` is a 51-operation sequence that respects
the add contract (all ids fresh), run on a project with unique ids and empty
history; the stack depth afterwards is 50 and N = 2 is within it, yet after
two undos and two redos task 100 carries fields value 7 where the pre-undo
state had 8 — the eviction at the 50-entry cap dropped the update item, so
the roundtrip replays the stale add instead. -/
theorem c1_counterexample :
    wfOps 0 baseStore opsEx = true ∧
    2 ≤ s1Ex.undoStack.length ∧
    findTaskFields s1Ex 100 = some 8 ∧
    findTaskFields s2Ex 100 = some 7 := by
  decide

/-- Claim C1 amended witness at a concrete two-operation history with N = 2. -/
theorem c1_undo_redo_roundtrip_witness :
    baseStore.currentProject = some emptyProject ∧
    (emptyProject.tasks.map Entity.id).Nodup ∧
    (emptyProject.resources.map Entity.id).Nodup ∧
    baseStore.undoStack = [] ∧
    opsW.length ≤ 50 ∧
    wfOps 0 baseStore opsW = true ∧
    2 ≤ (applyOps baseStore opsW 0).undoStack.length ∧
    (applyOps baseStore opsW 0).currentProject = some cpW ∧
    (∃ cp2, (redoN 2 (undoN 2 (applyOps baseStore opsW 0) 0) 0).currentProject = some cp2 ∧
      List.Perm cp2.tasks cpW.tasks ∧ List.Perm cp2.resources cpW.resources) :=
  ⟨rfl, by decide, by decide, rfl, by decide, by decide, by decide, by decide,
    c1_undo_redo_roundtrip baseStore emptyProject cpW opsW 0 2 rfl (by decide) (by decide)
      rfl (by decide) (by decide) (by decide) (by decide)⟩

end ProjectStore
